import Mathlib

/-!
Formal model of the render-cycle engine of `spit` (Show Pictures In Terminal).

Go strings are modelled as `List Char` (one entry per code point, as produced
by Go's `[]rune` conversion / `range` iteration).  Go `int`/`int64` values are
modelled as `Int`.  Code that can panic (out-of-range slice or index) is
modelled with `Option`, `none` standing for the panic.
-/

set_option autoImplicit false
set_option maxRecDepth 40000

namespace Spit

/-- Number of bytes of the UTF-8 encoding of a code point
(Go `utf8.RuneLen` for valid runes). -/
def utf8Len (c : Char) : Nat :=
  if c.toNat < 0x80 then 1
  else if c.toNat < 0x800 then 2
  else if c.toNat < 0x10000 then 3
  else 4

/-- UTF-8 encoding of a single code point, as its list of bytes. -/
def utf8EncodeChar (c : Char) : List Nat :=
  let n := c.toNat
  if n < 0x80 then [n]
  else if n < 0x800 then [0xC0 + n / 0x40, 0x80 + n % 0x40]
  else if n < 0x10000 then
    [0xE0 + n / 0x1000, 0x80 + n / 0x40 % 0x40, 0x80 + n % 0x40]
  else
    [0xF0 + n / 0x40000, 0x80 + n / 0x1000 % 0x40, 0x80 + n / 0x40 % 0x40,
      0x80 + n % 0x40]

/-- UTF-8 byte sequence of a string (Go's in-memory representation). -/
def utf8Bytes (s : List Char) : List Nat :=
  (s.map utf8EncodeChar).flatten

/-- Code-point ranges of the Unicode general category Mn (nonspacing marks),
the table behind Go's `unicode.Mn`. -/
def mnRanges : List (Nat × Nat) := [
  (0x300, 0x36f), (0x483, 0x487), (0x591, 0x5bd), (0x5bf, 0x5bf), (0x5c1, 0x5c2), (0x5c4, 0x5c5),
  (0x5c7, 0x5c7), (0x610, 0x61a), (0x64b, 0x65f), (0x670, 0x670), (0x6d6, 0x6dc), (0x6df, 0x6e4),
  (0x6e7, 0x6e8), (0x6ea, 0x6ed), (0x711, 0x711), (0x730, 0x74a), (0x7a6, 0x7b0), (0x7eb, 0x7f3),
  (0x7fd, 0x7fd), (0x816, 0x819), (0x81b, 0x823), (0x825, 0x827), (0x829, 0x82d), (0x859, 0x85b),
  (0x898, 0x89f), (0x8ca, 0x8e1), (0x8e3, 0x902), (0x93a, 0x93a), (0x93c, 0x93c), (0x941, 0x948),
  (0x94d, 0x94d), (0x951, 0x957), (0x962, 0x963), (0x981, 0x981), (0x9bc, 0x9bc), (0x9c1, 0x9c4),
  (0x9cd, 0x9cd), (0x9e2, 0x9e3), (0x9fe, 0x9fe), (0xa01, 0xa02), (0xa3c, 0xa3c), (0xa41, 0xa42),
  (0xa47, 0xa48), (0xa4b, 0xa4d), (0xa51, 0xa51), (0xa70, 0xa71), (0xa75, 0xa75), (0xa81, 0xa82),
  (0xabc, 0xabc), (0xac1, 0xac5), (0xac7, 0xac8), (0xacd, 0xacd), (0xae2, 0xae3), (0xafa, 0xaff),
  (0xb01, 0xb01), (0xb3c, 0xb3c), (0xb3f, 0xb3f), (0xb41, 0xb44), (0xb4d, 0xb4d), (0xb55, 0xb56),
  (0xb62, 0xb63), (0xb82, 0xb82), (0xbc0, 0xbc0), (0xbcd, 0xbcd), (0xc00, 0xc00), (0xc04, 0xc04),
  (0xc3c, 0xc3c), (0xc3e, 0xc40), (0xc46, 0xc48), (0xc4a, 0xc4d), (0xc55, 0xc56), (0xc62, 0xc63),
  (0xc81, 0xc81), (0xcbc, 0xcbc), (0xcbf, 0xcbf), (0xcc6, 0xcc6), (0xccc, 0xccd), (0xce2, 0xce3),
  (0xd00, 0xd01), (0xd3b, 0xd3c), (0xd41, 0xd44), (0xd4d, 0xd4d), (0xd62, 0xd63), (0xd81, 0xd81),
  (0xdca, 0xdca), (0xdd2, 0xdd4), (0xdd6, 0xdd6), (0xe31, 0xe31), (0xe34, 0xe3a), (0xe47, 0xe4e),
  (0xeb1, 0xeb1), (0xeb4, 0xebc), (0xec8, 0xecd), (0xf18, 0xf19), (0xf35, 0xf35), (0xf37, 0xf37),
  (0xf39, 0xf39), (0xf71, 0xf7e), (0xf80, 0xf84), (0xf86, 0xf87), (0xf8d, 0xf97), (0xf99, 0xfbc),
  (0xfc6, 0xfc6), (0x102d, 0x1030), (0x1032, 0x1037), (0x1039, 0x103a), (0x103d, 0x103e), (0x1058, 0x1059),
  (0x105e, 0x1060), (0x1071, 0x1074), (0x1082, 0x1082), (0x1085, 0x1086), (0x108d, 0x108d), (0x109d, 0x109d),
  (0x135d, 0x135f), (0x1712, 0x1714), (0x1732, 0x1733), (0x1752, 0x1753), (0x1772, 0x1773), (0x17b4, 0x17b5),
  (0x17b7, 0x17bd), (0x17c6, 0x17c6), (0x17c9, 0x17d3), (0x17dd, 0x17dd), (0x180b, 0x180d), (0x180f, 0x180f),
  (0x1885, 0x1886), (0x18a9, 0x18a9), (0x1920, 0x1922), (0x1927, 0x1928), (0x1932, 0x1932), (0x1939, 0x193b),
  (0x1a17, 0x1a18), (0x1a1b, 0x1a1b), (0x1a56, 0x1a56), (0x1a58, 0x1a5e), (0x1a60, 0x1a60), (0x1a62, 0x1a62),
  (0x1a65, 0x1a6c), (0x1a73, 0x1a7c), (0x1a7f, 0x1a7f), (0x1ab0, 0x1abd), (0x1abf, 0x1ace), (0x1b00, 0x1b03),
  (0x1b34, 0x1b34), (0x1b36, 0x1b3a), (0x1b3c, 0x1b3c), (0x1b42, 0x1b42), (0x1b6b, 0x1b73), (0x1b80, 0x1b81),
  (0x1ba2, 0x1ba5), (0x1ba8, 0x1ba9), (0x1bab, 0x1bad), (0x1be6, 0x1be6), (0x1be8, 0x1be9), (0x1bed, 0x1bed),
  (0x1bef, 0x1bf1), (0x1c2c, 0x1c33), (0x1c36, 0x1c37), (0x1cd0, 0x1cd2), (0x1cd4, 0x1ce0), (0x1ce2, 0x1ce8),
  (0x1ced, 0x1ced), (0x1cf4, 0x1cf4), (0x1cf8, 0x1cf9), (0x1dc0, 0x1dff), (0x20d0, 0x20dc), (0x20e1, 0x20e1),
  (0x20e5, 0x20f0), (0x2cef, 0x2cf1), (0x2d7f, 0x2d7f), (0x2de0, 0x2dff), (0x302a, 0x302d), (0x3099, 0x309a),
  (0xa66f, 0xa66f), (0xa674, 0xa67d), (0xa69e, 0xa69f), (0xa6f0, 0xa6f1), (0xa802, 0xa802), (0xa806, 0xa806),
  (0xa80b, 0xa80b), (0xa825, 0xa826), (0xa82c, 0xa82c), (0xa8c4, 0xa8c5), (0xa8e0, 0xa8f1), (0xa8ff, 0xa8ff),
  (0xa926, 0xa92d), (0xa947, 0xa951), (0xa980, 0xa982), (0xa9b3, 0xa9b3), (0xa9b6, 0xa9b9), (0xa9bc, 0xa9bd),
  (0xa9e5, 0xa9e5), (0xaa29, 0xaa2e), (0xaa31, 0xaa32), (0xaa35, 0xaa36), (0xaa43, 0xaa43), (0xaa4c, 0xaa4c),
  (0xaa7c, 0xaa7c), (0xaab0, 0xaab0), (0xaab2, 0xaab4), (0xaab7, 0xaab8), (0xaabe, 0xaabf), (0xaac1, 0xaac1),
  (0xaaec, 0xaaed), (0xaaf6, 0xaaf6), (0xabe5, 0xabe5), (0xabe8, 0xabe8), (0xabed, 0xabed), (0xfb1e, 0xfb1e),
  (0xfe00, 0xfe0f), (0xfe20, 0xfe2f), (0x101fd, 0x101fd), (0x102e0, 0x102e0), (0x10376, 0x1037a), (0x10a01, 0x10a03),
  (0x10a05, 0x10a06), (0x10a0c, 0x10a0f), (0x10a38, 0x10a3a), (0x10a3f, 0x10a3f), (0x10ae5, 0x10ae6), (0x10d24, 0x10d27),
  (0x10eab, 0x10eac), (0x10f46, 0x10f50), (0x10f82, 0x10f85), (0x11001, 0x11001), (0x11038, 0x11046), (0x11070, 0x11070),
  (0x11073, 0x11074), (0x1107f, 0x11081), (0x110b3, 0x110b6), (0x110b9, 0x110ba), (0x110c2, 0x110c2), (0x11100, 0x11102),
  (0x11127, 0x1112b), (0x1112d, 0x11134), (0x11173, 0x11173), (0x11180, 0x11181), (0x111b6, 0x111be), (0x111c9, 0x111cc),
  (0x111cf, 0x111cf), (0x1122f, 0x11231), (0x11234, 0x11234), (0x11236, 0x11237), (0x1123e, 0x1123e), (0x112df, 0x112df),
  (0x112e3, 0x112ea), (0x11300, 0x11301), (0x1133b, 0x1133c), (0x11340, 0x11340), (0x11366, 0x1136c), (0x11370, 0x11374),
  (0x11438, 0x1143f), (0x11442, 0x11444), (0x11446, 0x11446), (0x1145e, 0x1145e), (0x114b3, 0x114b8), (0x114ba, 0x114ba),
  (0x114bf, 0x114c0), (0x114c2, 0x114c3), (0x115b2, 0x115b5), (0x115bc, 0x115bd), (0x115bf, 0x115c0), (0x115dc, 0x115dd),
  (0x11633, 0x1163a), (0x1163d, 0x1163d), (0x1163f, 0x11640), (0x116ab, 0x116ab), (0x116ad, 0x116ad), (0x116b0, 0x116b5),
  (0x116b7, 0x116b7), (0x1171d, 0x1171f), (0x11722, 0x11725), (0x11727, 0x1172b), (0x1182f, 0x11837), (0x11839, 0x1183a),
  (0x1193b, 0x1193c), (0x1193e, 0x1193e), (0x11943, 0x11943), (0x119d4, 0x119d7), (0x119da, 0x119db), (0x119e0, 0x119e0),
  (0x11a01, 0x11a0a), (0x11a33, 0x11a38), (0x11a3b, 0x11a3e), (0x11a47, 0x11a47), (0x11a51, 0x11a56), (0x11a59, 0x11a5b),
  (0x11a8a, 0x11a96), (0x11a98, 0x11a99), (0x11c30, 0x11c36), (0x11c38, 0x11c3d), (0x11c3f, 0x11c3f), (0x11c92, 0x11ca7),
  (0x11caa, 0x11cb0), (0x11cb2, 0x11cb3), (0x11cb5, 0x11cb6), (0x11d31, 0x11d36), (0x11d3a, 0x11d3a), (0x11d3c, 0x11d3d),
  (0x11d3f, 0x11d45), (0x11d47, 0x11d47), (0x11d90, 0x11d91), (0x11d95, 0x11d95), (0x11d97, 0x11d97), (0x11ef3, 0x11ef4),
  (0x16af0, 0x16af4), (0x16b30, 0x16b36), (0x16f4f, 0x16f4f), (0x16f8f, 0x16f92), (0x16fe4, 0x16fe4), (0x1bc9d, 0x1bc9e),
  (0x1cf00, 0x1cf2d), (0x1cf30, 0x1cf46), (0x1d167, 0x1d169), (0x1d17b, 0x1d182), (0x1d185, 0x1d18b), (0x1d1aa, 0x1d1ad),
  (0x1d242, 0x1d244), (0x1da00, 0x1da36), (0x1da3b, 0x1da6c), (0x1da75, 0x1da75), (0x1da84, 0x1da84), (0x1da9b, 0x1da9f),
  (0x1daa1, 0x1daaf), (0x1e000, 0x1e006), (0x1e008, 0x1e018), (0x1e01b, 0x1e021), (0x1e023, 0x1e024), (0x1e026, 0x1e02a),
  (0x1e130, 0x1e136), (0x1e2ae, 0x1e2ae), (0x1e2ec, 0x1e2ef), (0x1e8d0, 0x1e8d6), (0x1e944, 0x1e94a), (0xe0100, 0xe01ef)
]

/-- Membership test for the Mn category (Go `unicode.Is(unicode.Mn, r)`). -/
def isMn (c : Char) : Bool :=
  mnRanges.any (fun p => decide (p.1 ≤ c.toNat ∧ c.toNat ≤ p.2))

/-- Model of `runeWidth` from `main.go`: display width of one code point.
Nonspacing marks are 0 columns, 4-byte code points (emoji etc.) are 2,
everything else is 1. -/
def runeWidth (c : Char) : Nat :=
  if isMn c then 0
  else if utf8Len c = 4 then 2
  else 1

/-- Model of `displayWidth` from `main.go`: total display width of a string. -/
def displayWidth (s : List Char) : Nat :=
  (s.map runeWidth).sum

/-- Go `unicode.IsSpace`. -/
def goIsSpace (c : Char) : Bool :=
  let n := c.toNat
  n = 0x9 || n = 0xA || n = 0xB || n = 0xC || n = 0xD || n = 0x20 ||
  n = 0x85 || n = 0xA0 || n = 0x1680 || (0x2000 ≤ n && n ≤ 0x200A) ||
  n = 0x2028 || n = 0x2029 || n = 0x202F || n = 0x205F || n = 0x3000

/-- Go `strings.TrimSpace`. -/
def trimSpace (s : List Char) : List Char :=
  ((s.dropWhile goIsSpace).reverse.dropWhile goIsSpace).reverse

/-- Splits a string at every whitespace character (helper for `fields`). -/
def splitAtSpaces : List Char → List (List Char)
  | [] => [[]]
  | c :: rest =>
    if goIsSpace c then [] :: splitAtSpaces rest
    else
      match splitAtSpaces rest with
      | [] => [[c]]
      | p :: ps => (c :: p) :: ps

/-- Go `strings.Fields`: whitespace-delimited fields, empties dropped. -/
def fields (s : List Char) : List (List Char) :=
  (splitAtSpaces s).filter (fun p => !p.isEmpty)

/-- One left-to-right pass of Go's `strings.Replacer` whose patterns are all
two characters long and start with `%`; `tab` maps the second character of a
pattern to its replacement. At a position where no pattern matches one
character is emitted and the scan advances by one. -/
def expandTokens (tab : Char → Option (List Char)) : List Char → List Char
  | [] => []
  | '%' :: c :: rest =>
    match tab c with
    | some r => r ++ expandTokens tab rest
    | none => '%' :: expandTokens tab (c :: rest)
  | c :: rest => c :: expandTokens tab rest

/-- Go `strconv.Itoa` (and `fmt %d`) for modelled Go integers. -/
def itoa (n : Int) : List Char :=
  if n < 0 then '-' :: Nat.toDigits 10 n.natAbs
  else Nat.toDigits 10 n.toNat

/-- Go `strings.Count s pat` for a two-character pattern `[a, b]`:
number of non-overlapping occurrences, scanning left to right. -/
def count2 (a b : Char) : List Char → Nat
  | x :: y :: rest =>
    if x = a ∧ y = b then count2 a b rest + 1
    else count2 a b (y :: rest)
  | _ => 0

/-- Go `strings.Split s pat` for a two-character pattern `[a, b]`:
the segments between non-overlapping occurrences, scanning left to right. -/
def split2 (a b : Char) : List Char → List (List Char)
  | x :: y :: rest =>
    if x = a ∧ y = b then [] :: split2 a b rest
    else
      match split2 a b (y :: rest) with
      | [] => [[x]]
      | p :: ps => (x :: p) :: ps
  | l => [l]

/-- Go `strings.ReplaceAll s pat rep` for a three-character pattern
`[a, b, c]`: every non-overlapping occurrence is replaced, left to right. -/
def replAll3 (a b c : Char) (rep : List Char) : List Char → List Char
  | x :: y :: z :: rest =>
    if x = a ∧ y = b ∧ z = c then rep ++ replAll3 a b c rep rest
    else x :: replAll3 a b c rep (y :: z :: rest)
  | l => l

/-- Go `strings.SplitN`-style segmentation at a three-character pattern:
the segments between non-overlapping occurrences, scanning left to right. -/
def split3 (a b c : Char) : List Char → List (List Char)
  | x :: y :: z :: rest =>
    if x = a ∧ y = b ∧ z = c then [] :: split3 a b c rest
    else
      match split3 a b c (y :: z :: rest) with
      | [] => [[x]]
      | p :: ps => (x :: p) :: ps
  | l => [l]

/-- Joins segments with a separator (specification helper used to state that
a replace-all pass rewrites every occurrence of its pattern). -/
def joinWith (sep : List Char) : List (List Char) → List Char
  | [] => []
  | [p] => p
  | p :: ps => p ++ sep ++ joinWith sep ps

/-- Whether `pat` occurs as a contiguous substring (Go `strings.Contains`). -/
def occurs (pat : List Char) : List Char → Bool
  | [] => pat.isEmpty
  | c :: rest => pat.isPrefixOf (c :: rest) || occurs pat rest

/-- Go `strings.Replace s old new 1`: replace the first occurrence of `old`
(insert `new` at the front when `old` is empty); `s` unchanged when `old`
does not occur. -/
def replaceFirst (old new : List Char) : List Char → List Char
  | [] => if old.isEmpty then new else []
  | c :: rest =>
    if old.isPrefixOf (c :: rest) then new ++ (c :: rest).drop old.length
    else c :: replaceFirst old new rest

/-- The `picture` struct from `main.go`. -/
structure Picture where
  name : List Char
  path : List Char
  size : Int
  width : Int
  height : Int
  format : List Char

/-- Replacement table of the `strings.NewReplacer` in `printStatus`
(`%%`, `%f`, `%h`, `%i`, `%s`, `%t`, `%w`), keyed by the character after
`%`. -/
def statusTab (pic : Picture) (idx total : Int) (c : Char) : Option (List Char) :=
  if c = '%' then some ['%']
  else if c = 'f' then some pic.name
  else if c = 'h' then some (itoa pic.height)
  else if c = 'i' then some (itoa idx)
  else if c = 's' then some (itoa pic.size ++ ['B'])
  else if c = 't' then some (itoa total)
  else if c = 'w' then some (itoa pic.width)
  else none

/-- The placeholder substitution pass of `printStatus` (`r.Replace`). -/
def statusSubst (sl : List Char) (pic : Picture) (idx total : Int) : List Char :=
  expandTokens (statusTab pic idx total) sl

/-- The substituted status line after the unknown-dimension pass of
`printStatus`: when both height and width are zero, every `0x0` and then
every `0X0` is replaced by `N/A`. -/
def statusNA (sl : List Char) (pic : Picture) (idx total : Int) : List Char :=
  let s := statusSubst sl pic idx total
  if pic.height = 0 ∧ pic.width = 0 then
    replAll3 '0' 'X' '0' ['N', '/', 'A'] (replAll3 '0' 'x' '0' ['N', '/', 'A'] s)
  else s

/-- The truncation step of `printStatus` (the `if excess > 0` block).
`none` models the Go panic when a rune-slice start index exceeds the
slice length. -/
def truncStep (tc name : List Char) (excess : Int) (s : List Char) :
    Option (List Char) :=
  if 0 < excess then
    let k := excess.toNat + displayWidth tc
    if excess < (displayWidth name : Int) then
      if k ≤ name.length then
        some (replaceFirst name (tc ++ name.drop k) s)
      else none
    else
      if k ≤ s.length then some (tc ++ s.drop k)
      else none
  else some s

/-- The gap loop of `printStatus`: writes `parts[0]`, then before the `i`-th
remaining part writes `gapSize` spaces, plus one extra while `i < rem`. -/
def gapsAux (gapSize rem : Nat) (i : Nat) : List (List Char) → List Char
  | [] => []
  | q :: qs =>
    List.replicate (gapSize + if i < rem then 1 else 0) ' ' ++ q ++
      gapsAux gapSize rem (i + 1) qs

/-- The builder phase of `printStatus`: segments joined by computed gaps. -/
def joinGaps (gapSize rem : Nat) : List (List Char) → List Char
  | [] => []
  | p :: ps => p ++ gapsAux gapSize rem 0 ps

/-- The pure layout pipeline of `printStatus` for a non-empty status-line
template: substitution, unknown-dimension pass, gap counting on the
template, truncation, then gap justification.  `none` models a panic. -/
def composeStatus (sl tc : List Char) (pic : Picture) (idx total : Int)
    (cols : Int) : Option (List Char) :=
  let s := statusNA sl pic idx total
  let gaps := count2 '%' '=' sl
  let excess : Int := ((displayWidth s : Int) - (gaps : Int) * 2) - cols
  (truncStep tc pic.name excess s).map fun s2 =>
    let free : Nat := (cols - ((displayWidth s2 : Int) - (gaps : Int) * 2)).toNat
    let gapSize := if 0 < gaps then free / gaps else 0
    let rem := if 0 < gaps then free % gaps else 0
    joinGaps gapSize rem (split2 '%' '=' s2)

/-- Model of `printStatus` from `main.go`, as the line it prints on the last row:
`some none` when the template is empty (nothing printed), `some (some l)`
when line `l` is printed, `none` for a panic. -/
def printStatus (sl tc : List Char) (pic : Picture) (idx total : Int)
    (cols : Int) : Option (Option (List Char)) :=
  if sl.isEmpty then some none
  else (composeStatus sl tc pic idx total cols).map some

/-- Replacement table of the `strings.NewReplacer` in `generateCmd`
(`%%`, `%c`, `%r`, `%f`), keyed by the character after `%`. -/
def cmdTab (cols rows : Int) (path : List Char) (c : Char) : Option (List Char) :=
  if c = '%' then some ['%']
  else if c = 'c' then some (itoa cols)
  else if c = 'r' then some (itoa (rows - 2))
  else if c = 'f' then some path
  else none

/-- Model of `generateCmd` from `main.go`: split the template into whitespace-delimited
fields, expand each field, return the first field as the command and the rest
as arguments.  `none` models the panic of `parts[0]` when the template is
non-empty but whitespace-only (no fields). -/
def generateCmd (s : List Char) (cols rows : Int) (path : List Char) :
    Option (List Char × List (List Char)) :=
  if s.isEmpty then some ([], [])
  else
    match (fields s).map (expandTokens (cmdTab cols rows path)) with
    | [] => none
    | c :: rest => some (c, rest)

/-- Observable behaviour of one subprocess run in `execCmd`: its exit code
and what it wrote to its buffered standard output and standard error. -/
structure ChildResult where
  exitCode : Int
  stdout : List Nat
  stderr : List Nat

/-- Model of `execCmd` from `main.go`, for a command whose subprocess behaves as
`child`: returns the bytes forwarded to the program's standard output and
whether the call failed.  A blank name is a no-op success; `cmd.Run`'s error
is a non-zero exit code. -/
def execCmd (name : List Char) (child : ChildResult) : List Nat × Bool :=
  if trimSpace name = [] then ([], false)
  else if child.exitCode ≠ 0 ∨ child.stderr ≠ [] then ([], true)
  else (child.stdout, false)

/-- Model of `next` from `main.go`; `wrap` is `gOpts.wrapscroll`.  Go's `%` on `int`
is truncated remainder, `Int.tmod`. -/
def next (wrap : Bool) (idx n : Int) : Int :=
  if wrap then Int.tmod (idx + 1) n
  else min (idx + 1) (n - 1)

/-- Model of `prev` from `main.go`; `wrap` is `gOpts.wrapscroll`. -/
def prev (wrap : Bool) (idx n : Int) : Int :=
  if wrap then Int.tmod (idx - 1 + n) n
  else max 0 (idx - 1)

/-- The ANSI reset sequence `\033[0m` used by `showError`. -/
def resetSeq : List Char := [Char.ofNat 27, '[', '0', 'm']

/-- Go `fmt` `%q` quoting, modelled for strings of printable characters:
wrap in double quotes, backslash-escape quotes and backslashes. -/
def goQuote (s : List Char) : List Char :=
  '"' :: (s.map fun c => if c = '"' ∨ c = '\\' then ['\\', c] else [c]).flatten
    ++ ['"']

/-- The string printed by `showError` from `main.go`:
the configured error-format prefix, the message, then a reset. -/
def showErrorText (errorfmt s : List Char) : List Char :=
  errorfmt ++ s ++ resetSeq

/-- Terminal effects emitted by one iteration of the `run` loop. -/
inductive Event where
  | setTitle (name : List Char)
  | stdoutWrite (bs : List Nat)
  | moveCursor (row col : Int)
  | clearLine
  | printAt (row col : Int) (s : List Char)
  | helpShown
deriving DecidableEq

/-- The render settings the `run` loop reads from `gOpts`. -/
structure LoopCfg where
  title : Bool
  wrap : Bool
  cleaner : List Char
  previewer : List Char
  statusline : List Char
  truncatechar : List Char
  errorfmt : List Char

/-- The loop-local navigation state of `run` (`curr` and `last`). -/
structure LoopSt where
  curr : Int
  last : Int
deriving DecidableEq

/-- Message of the cleaner-failure branch of `run`. -/
def msgClear : List Char :=
  ['E', 'r', 'r', 'o', 'r', ' ', 'c', 'l', 'e', 'a', 'r', 'i', 'n', 'g', ' ',
    's', 'c', 'r', 'e', 'e', 'n']

/-- Message of the previewer-failure branch of `run`
(`fmt.Sprintf("Error displaying %q", path)`). -/
def msgDisplay (path : List Char) : List Char :=
  ['E', 'r', 'r', 'o', 'r', ' ', 'd', 'i', 's', 'p', 'l', 'a', 'y', 'i', 'n',
    'g', ' '] ++ goQuote path

/-- The render phase of one `run` iteration (the `if last != curr` block):
dirty-check, title, cleaner, cursor home, previewer, status line.  The two
`ChildResult`s describe how the cleaner and previewer subprocesses behave on
this render; failures take the `showError`-and-`continue` paths.  `none`
models a panic inside the render phase. -/
def renderDirty (cfg : LoopCfg) (pics : Int → Picture) (total : Int)
    (cols rows : Int) (cc pc : ChildResult) (st : LoopSt) :
    Option (LoopSt × List Event) :=
  if st.last = st.curr then some (st, [])
  else
    let st1 : LoopSt := ⟨st.curr, st.curr⟩
    let pic := pics st.curr
    let evT := if cfg.title then [Event.setTitle pic.name] else []
    match generateCmd cfg.cleaner cols rows pic.path with
    | none => none
    | some (cname, _) =>
      let rc := execCmd cname cc
      if rc.2 then
        some (st1, evT ++ [Event.printAt rows 1 (showErrorText cfg.errorfmt msgClear)])
      else
        match generateCmd cfg.previewer cols rows pic.path with
        | none => none
        | some (pname, _) =>
          let rp := execCmd pname pc
          if rp.2 then
            some (st1, evT ++ [Event.stdoutWrite rc.1, Event.moveCursor 1 1,
              Event.printAt rows 1 (showErrorText cfg.errorfmt (msgDisplay pic.path))])
          else
            match printStatus cfg.statusline cfg.truncatechar pic (st.curr + 1)
              total cols with
            | none => none
            | some none =>
              some (st1, evT ++ [Event.stdoutWrite rc.1, Event.moveCursor 1 1,
                Event.stdoutWrite rp.1])
            | some (some line) =>
              some (st1, evT ++ [Event.stdoutWrite rc.1, Event.moveCursor 1 1,
                Event.stdoutWrite rp.1, Event.moveCursor rows 1, Event.clearLine,
                Event.printAt rows 1 line])

/-- One iteration of the `run` loop: render phase when dirty, then one
blocking read (`none` = end of input) and the key dispatch.  The returned
`Bool` is whether the loop terminates (the process exits the loop).  `none`
models a panic. -/
def loopIter (cfg : LoopCfg) (pics : Int → Picture) (total : Int)
    (cols rows : Int) (cc pc : ChildResult) (st : LoopSt)
    (input : Option Char) : Option (LoopSt × List Event × Bool) :=
  (renderDirty cfg pics total cols rows cc pc st).bind fun p =>
    let st1 := p.1
    let evs := p.2
    match input with
    | none => some (st1, evs, true)
    | some b =>
      if b = 'q' then some (st1, evs, true)
      else if b = 'l' ∨ b = 'j' then
        some (⟨next cfg.wrap st1.curr total, st1.last⟩, evs, false)
      else if b = 'h' ∨ b = 'k' then
        some (⟨prev cfg.wrap st1.curr total, st1.last⟩, evs, false)
      else if b = 'g' then some (⟨0, st1.last⟩, evs, false)
      else if b = 'G' then some (⟨total - 1, st1.last⟩, evs, false)
      else if b = '?' then
        some (⟨st1.curr, st1.last - 1⟩, evs ++ [Event.helpShown], false)
      else some (st1, evs, false)

/-! ### Width and splitting lemmas -/

theorem displayWidth_cons (c : Char) (l : List Char) :
    displayWidth (c :: l) = runeWidth c + displayWidth l := by
  simp [displayWidth]

theorem displayWidth_append (a b : List Char) :
    displayWidth (a ++ b) = displayWidth a + displayWidth b := by
  simp [displayWidth]

theorem displayWidth_nil : displayWidth [] = 0 := rfl

theorem displayWidth_replicate_space (n : Nat) :
    displayWidth (List.replicate n ' ') = n := by
  induction n with
  | zero => rfl
  | succ m ih =>
    have h1 : runeWidth ' ' = 1 := by decide
    simp [List.replicate_succ, displayWidth_cons, ih, h1]
    omega

theorem count2_cons2_pos {a b x y : Char} (rest : List Char) (h : x = a ∧ y = b) :
    count2 a b (x :: y :: rest) = count2 a b rest + 1 := by
  simp [count2, h]

theorem count2_cons2_neg {a b x y : Char} (rest : List Char)
    (h : ¬(x = a ∧ y = b)) :
    count2 a b (x :: y :: rest) = count2 a b (y :: rest) := by
  simp [count2, h]

theorem split2_cons2_pos {a b x y : Char} (rest : List Char) (h : x = a ∧ y = b) :
    split2 a b (x :: y :: rest) = [] :: split2 a b rest := by
  simp [split2, h]

theorem split2_cons2_neg {a b x y : Char} {p : List Char} {ps : List (List Char)}
    (rest : List Char) (h : ¬(x = a ∧ y = b))
    (hm : split2 a b (y :: rest) = p :: ps) :
    split2 a b (x :: y :: rest) = (x :: p) :: ps := by
  simp [split2, h, hm]

theorem split2_ne_nil (a b : Char) (s : List Char) : split2 a b s ≠ [] := by
  induction s using split2.induct a b
  case case1 => rename_i x y rest h ih; simp [split2_cons2_pos rest h]
  case case2 => rename_i x y rest h hm ih; exact absurd hm ih
  case case3 => rename_i x y rest h p ps hm ih; simp [split2_cons2_neg rest h hm]
  case case4 =>
    rename_i l h
    match l, h with
    | [], _ => simp [split2]
    | [c], _ => simp [split2]
    | c :: d :: t, h => exact absurd (h c d t rfl) id

theorem split2_length (a b : Char) (s : List Char) :
    (split2 a b s).length = count2 a b s + 1 := by
  induction s using split2.induct a b
  case case1 =>
    rename_i x y rest h ih
    simp [split2_cons2_pos rest h, count2_cons2_pos rest h, ih]
  case case2 => rename_i x y rest h hm ih; exact absurd hm (split2_ne_nil a b _)
  case case3 =>
    rename_i x y rest h p ps hm ih
    rw [split2_cons2_neg rest h hm, count2_cons2_neg rest h, ← ih, hm]
    simp
  case case4 =>
    rename_i l h
    match l, h with
    | [], _ => simp [split2, count2]
    | [c], _ => simp [split2, count2]
    | c :: d :: t, h => exact absurd (h c d t rfl) id

theorem split2_width (a b : Char) (ha : runeWidth a = 1) (hb : runeWidth b = 1)
    (s : List Char) :
    ((split2 a b s).map displayWidth).sum + 2 * count2 a b s = displayWidth s := by
  induction s using split2.induct a b
  case case1 =>
    rename_i x y rest h ih
    rw [split2_cons2_pos rest h, count2_cons2_pos rest h]
    obtain ⟨hx, hy⟩ := h
    simp only [List.map_cons, List.sum_cons, displayWidth_cons, displayWidth_nil,
      hx, hy, ha, hb]
    omega
  case case2 => rename_i x y rest h hm ih; exact absurd hm (split2_ne_nil a b _)
  case case3 =>
    rename_i x y rest h p ps hm ih
    rw [split2_cons2_neg rest h hm, count2_cons2_neg rest h]
    rw [hm] at ih
    simp only [List.map_cons, List.sum_cons, displayWidth_cons] at ih ⊢
    omega
  case case4 =>
    rename_i l h
    match l, h with
    | [], _ => simp [split2, count2, displayWidth]
    | [c], _ => simp [split2, count2]
    | c :: d :: t, h => exact absurd (h c d t rfl) id

theorem gapsAux_width (gs rem : Nat) (qs : List (List Char)) : ∀ i : Nat,
    displayWidth (gapsAux gs rem i qs) =
      (qs.map displayWidth).sum + qs.length * gs +
        (min rem (i + qs.length) - min rem i) := by
  induction qs with
  | nil => intro i; simp [gapsAux, displayWidth]
  | cons q t ih =>
    intro i
    simp only [gapsAux, displayWidth_append, displayWidth_replicate_space,
      List.map_cons, List.sum_cons, List.length_cons, ih (i + 1)]
    rw [Nat.succ_mul]
    rcases Nat.le_total rem i with hr | hr
    · rw [Nat.min_eq_left hr,
        Nat.min_eq_left (le_trans hr (Nat.le_add_right i (t.length + 1))),
        Nat.min_eq_left (le_trans hr (by omega : i ≤ i + 1)),
        Nat.min_eq_left (le_trans hr (by omega : i ≤ i + 1 + t.length))]
    -- rem is exhausted at or before position i: no extra columns anywhere
      have hni : ¬ i < rem := by omega
      simp [hni]
      omega
    · rw [Nat.min_eq_right hr]
      have he : i + 1 + t.length = i + (t.length + 1) := by omega
      rw [he]
      rcases Nat.le_total rem (i + 1) with hr1 | hr1
      · rw [Nat.min_eq_left hr1,
          Nat.min_eq_left (le_trans hr1 (by omega : i + 1 ≤ i + (t.length + 1)))]
        split <;> omega
      · rw [Nat.min_eq_right hr1]
        have hle : i + 1 ≤ min rem (i + (t.length + 1)) :=
          le_min hr1 (by omega)
        have hge : min rem (i + (t.length + 1)) ≤ i + (t.length + 1) :=
          min_le_right _ _
        have hpos : i < rem := by omega
        simp only [if_pos hpos]
        omega

theorem count2_ne_nil {a b : Char} {s : List Char} (h : 1 ≤ count2 a b s) :
    s.isEmpty = false := by
  cases s with
  | nil => simp [count2] at h
  | cons c t => rfl

theorem truncStep_noop (tc name : List Char) {excess : Int} (s : List Char)
    (h : ¬ 0 < excess) : truncStep tc name excess s = some s := by
  simp [truncStep, h]

theorem composeStatus_no_trunc (sl tc : List Char) (pic : Picture)
    (idx total cols : Int)
    (hexc : ¬ 0 < ((displayWidth (statusNA sl pic idx total) : Int)
      - (count2 '%' '=' sl : Int) * 2) - cols)
    (hpos : 0 < count2 '%' '=' sl) :
    composeStatus sl tc pic idx total cols =
      some (joinGaps
        ((cols - ((displayWidth (statusNA sl pic idx total) : Int)
            - (count2 '%' '=' sl : Int) * 2)).toNat / count2 '%' '=' sl)
        ((cols - ((displayWidth (statusNA sl pic idx total) : Int)
            - (count2 '%' '=' sl : Int) * 2)).toNat % count2 '%' '=' sl)
        (split2 '%' '=' (statusNA sl pic idx total))) := by
  simp only [composeStatus, truncStep_noop _ _ _ hexc, Option.map_some',
    if_pos hpos]

theorem gapsAux_enumFrom (gs rem : Nat) : ∀ (ps : List (List Char)) (i : Nat),
    gapsAux gs rem i ps = ((List.enumFrom i ps).map fun e =>
      List.replicate (gs + if e.1 < rem then 1 else 0) ' ' ++ e.2).flatten := by
  intro ps
  induction ps with
  | nil => intro i; simp [gapsAux]
  | cons q t ih =>
    intro i
    simp [gapsAux, ih (i + 1)]

/-- **C1** (amended).  Gap-fill law of the status line: for every status-line
template with `k ≥ 1` gap markers `%=`, whenever the substituted line still
contains exactly `k` gap markers (the substitution introduced none) and its
content is narrower than `columns`, the line `printStatus` emits has display
width exactly `columns`; explicitly, with `free = columns - (displayWidth(line)
- 2k)`, the emitted line is the first segment followed, for each remaining
segment of index `i` (counted from the left, starting at 0), by
`free / k` spaces — plus one extra space exactly when `i < free % k`, so the
remainder goes to the leftmost gaps — and then that segment. -/
theorem c1_gap_fill_law (sl tc : List Char) (pic : Picture)
    (idx total cols : Int)
    (hk : 1 ≤ count2 '%' '=' sl)
    (hsame : count2 '%' '=' (statusNA sl pic idx total) = count2 '%' '=' sl)
    (hnarrow : (displayWidth (statusNA sl pic idx total) : Int)
        - 2 * (count2 '%' '=' sl : Int) < cols) :
    ∃ (out : List Char) (free : Nat),
      printStatus sl tc pic idx total cols = some (some out) ∧
      (free : Int) = cols - ((displayWidth (statusNA sl pic idx total) : Int)
        - 2 * (count2 '%' '=' sl : Int)) ∧
      (displayWidth out : Int) = cols ∧
      ∀ p ps, split2 '%' '=' (statusNA sl pic idx total) = p :: ps →
        out = p ++ ((List.enum ps).map fun e =>
          List.replicate (free / count2 '%' '=' sl
              + if e.1 < free % count2 '%' '=' sl then 1 else 0) ' '
            ++ e.2).flatten := by
  set s := statusNA sl pic idx total with hs
  set g := count2 '%' '=' sl with hg
  have hpos : 0 < g := hk
  have hne : sl.isEmpty = false := count2_ne_nil hk
  obtain ⟨p, ps, hps⟩ : ∃ p ps, split2 '%' '=' s = p :: ps := by
    rcases h : split2 '%' '=' s with _ | ⟨p, ps⟩
    · exact absurd h (split2_ne_nil _ _ _)
    · exact ⟨p, ps, rfl⟩
  have hlen : ps.length = g := by
    have h1 := split2_length '%' '=' s
    rw [hps, hsame] at h1
    simpa using h1
  have hwidth : displayWidth p + (ps.map displayWidth).sum + 2 * g
      = displayWidth s := by
    have h1 := split2_width '%' '=' (by decide) (by decide) s
    rw [hps, hsame] at h1
    simpa [Nat.add_assoc] using h1
  have hexc : ¬ 0 < ((displayWidth s : Int) - (g : Int) * 2) - cols := by omega
  set F : Nat := (cols - ((displayWidth s : Int) - (g : Int) * 2)).toNat with hF
  have hFi : (F : Int) = cols - ((displayWidth s : Int) - (g : Int) * 2) := by
    rw [hF]
    have hWge : 2 * g ≤ displayWidth s := by omega
    refine Int.toNat_of_nonneg ?_
    omega
  refine ⟨joinGaps (F / g) (F % g) (p :: ps), F, ?_, by omega, ?_, ?_⟩
  · simp only [printStatus, hne, Bool.false_eq_true, if_false]
    rw [composeStatus_no_trunc sl tc pic idx total cols hexc hpos, hps]
    rfl
  · have hrem : F % g < g := Nat.mod_lt F hpos
    have hkey : displayWidth (joinGaps (F / g) (F % g) (p :: ps))
        = displayWidth p + (ps.map displayWidth).sum + F := by
      calc displayWidth (joinGaps (F / g) (F % g) (p :: ps))
          = displayWidth p + displayWidth (gapsAux (F / g) (F % g) 0 ps) := by
            simp [joinGaps, displayWidth_append]
        _ = displayWidth p + ((ps.map displayWidth).sum + g * (F / g)
              + (min (F % g) g - 0)) := by
            rw [gapsAux_width, hlen, Nat.min_zero, Nat.zero_add]
        _ = displayWidth p + ((ps.map displayWidth).sum + g * (F / g)
              + F % g) := by
            rw [Nat.min_eq_left (Nat.le_of_lt hrem), Nat.sub_zero]
        _ = displayWidth p + ((ps.map displayWidth).sum + F) := by
            rw [Nat.add_assoc ((ps.map displayWidth).sum), Nat.div_add_mod F g]
        _ = displayWidth p + (ps.map displayWidth).sum + F := by
            rw [Nat.add_assoc]
    rw [hkey]
    omega
  · intro p' ps' hsplit
    rw [hps] at hsplit
    injection hsplit with h1 h2
    subst h1
    subst h2
    rw [show joinGaps (F / g) (F % g) (p :: ps)
        = p ++ gapsAux (F / g) (F % g) 0 ps from rfl, gapsAux_enumFrom]
    rfl

/-- **C1** counterexample to the claim as stated: an image name containing the
gap marker `%=` satisfies every hypothesis of the claim (`k = 1` marker in
the template, substituted content narrower than `columns = 20`), yet the
emitted line has display width 34, not 20. -/
theorem c1_counterexample :
    count2 '%' '=' ("%f%=").data = 1 ∧
    (displayWidth (statusNA ("%f%=").data
        ⟨("a%=b").data, ("p").data, 1, 1, 1, []⟩ 1 1) : Int) - 2 * 1 < 20 ∧
    (printStatus ("%f%=").data ("~").data
        ⟨("a%=b").data, ("p").data, 1, 1, 1, []⟩ 1 1 20).map
      (Option.map displayWidth) = some (some 34) :=
  ⟨by decide, by decide, by decide⟩

/-- **C1** witness: the amended theorem applied at a concrete input. -/
theorem c1_witness :
    ∃ (out : List Char) (free : Nat),
      printStatus ("a%=b").data ("~").data
        ⟨("a").data, ("p").data, 1, 1, 1, []⟩ 1 1 10 = some (some out) ∧
      (free : Int) = 10 - ((displayWidth (statusNA ("a%=b").data
          ⟨("a").data, ("p").data, 1, 1, 1, []⟩ 1 1) : Int)
        - 2 * (count2 '%' '=' ("a%=b").data : Int)) ∧
      (displayWidth out : Int) = 10 ∧
      ∀ p ps, split2 '%' '=' (statusNA ("a%=b").data
          ⟨("a").data, ("p").data, 1, 1, 1, []⟩ 1 1) = p :: ps →
        out = p ++ ((List.enum ps).map fun e =>
          List.replicate (free / count2 '%' '=' ("a%=b").data
              + if e.1 < free % count2 '%' '=' ("a%=b").data then 1 else 0) ' '
            ++ e.2).flatten :=
  c1_gap_fill_law ("a%=b").data ("~").data ⟨("a").data, ("p").data, 1, 1, 1, []⟩
    1 1 10 (by decide) (by decide) (by decide)

/-- **C2**.  Invocation classification of `execCmd`: for a non-blank command
name, the call fails exactly when the subprocess exits non-zero or wrote
anything to standard error; on failure nothing of the buffered standard
output is forwarded, on success it is forwarded verbatim. -/
theorem next_true_eq (idx n : Int) : next true idx n = Int.tmod (idx + 1) n := rfl

theorem next_false_eq (idx n : Int) : next false idx n = min (idx + 1) (n - 1) := rfl

theorem prev_true_eq (idx n : Int) : prev true idx n = Int.tmod (idx - 1 + n) n := rfl

theorem prev_false_eq (idx n : Int) : prev false idx n = max 0 (idx - 1) := rfl

theorem c2_exec_classification (name : List Char) (child : ChildResult)
    (h : trimSpace name ≠ []) :
    ((execCmd name child).2 = true ↔
      (child.exitCode ≠ 0 ∨ child.stderr ≠ [])) ∧
    ((execCmd name child).2 = true → (execCmd name child).1 = []) ∧
    ((execCmd name child).2 = false → (execCmd name child).1 = child.stdout) := by
  simp only [execCmd, if_neg h]
  by_cases hc : child.exitCode ≠ 0 ∨ child.stderr ≠ []
  · simp [hc]
  · simp [hc]

/-- **C2** witness: a previewer that exits 0 but writes to standard error is
classified as failed and nothing is forwarded. -/
theorem c2_witness :
    (execCmd ("p").data ⟨0, [7], [9]⟩).2 = true ∧
    (execCmd ("p").data ⟨0, [7], [9]⟩).1 = [] := by
  have h := c2_exec_classification ("p").data ⟨0, [7], [9]⟩ (by decide)
  exact ⟨h.1.mpr (Or.inr (by decide)),
    h.2.1 (h.1.mpr (Or.inr (by decide)))⟩

theorem next_true_iterate (n : Int) (h1 : 1 ≤ n) : ∀ (k : Nat) (idx : Int),
    0 ≤ idx → idx < n →
    (fun i => next true i n)^[k] idx = (idx + k) % n := by
  intro k
  induction k with
  | zero =>
    intro idx h2 h3
    simp [Int.emod_eq_of_lt h2 h3]
  | succ m ih =>
    intro idx h2 h3
    rw [Function.iterate_succ_apply]
    have hfx : next true idx n = (idx + 1) % n := by
      rw [next_true_eq]
      exact Int.tmod_eq_emod (by omega) (by omega)
    rw [hfx, ih ((idx + 1) % n) (Int.emod_nonneg _ (by omega))
      (Int.emod_lt_of_pos _ (by omega)), Int.emod_add_emod]
    congr 1
    push_cast
    ring

/-- **C3**.  Navigation arithmetic: with wrap enabled, `next` and `prev` are
index arithmetic modulo the catalog length and `next` applied `n` times
returns to the start; with wrap disabled, `next` clamps at `n - 1` (repeated
`next` from `n - 1` stays there) and `prev` clamps at `0`. -/
theorem c3_navigation (n idx : Int) (h1 : 1 ≤ n) (h2 : 0 ≤ idx) (h3 : idx < n) :
    (next true idx n = (idx + 1) % n ∧
      prev true idx n = (idx - 1 + n) % n) ∧
    (fun i => next true i n)^[n.toNat] idx = idx ∧
    (next false idx n ≤ n - 1 ∧
      (idx + 1 ≤ n - 1 → next false idx n = idx + 1) ∧
      (∀ k : Nat, (fun i => next false i n)^[k] (n - 1) = n - 1)) ∧
    (0 ≤ prev false idx n ∧ (1 ≤ idx → prev false idx n = idx - 1) ∧
      prev false 0 n = 0) := by
  refine ⟨⟨?_, ?_⟩, ?_, ⟨?_, ?_, ?_⟩, ?_, ?_, ?_⟩
  · rw [next_true_eq]
    exact Int.tmod_eq_emod (by omega) (by omega)
  · rw [prev_true_eq]
    exact Int.tmod_eq_emod (by omega) (by omega)
  · rw [next_true_iterate n h1 n.toNat idx h2 h3,
      Int.toNat_of_nonneg (by omega : (0:Int) ≤ n)]
    have ha : (idx + n) % n = idx % n := by
      have hb := Int.add_mul_emod_self_left idx n 1
      rwa [Int.mul_one] at hb
    rw [ha, Int.emod_eq_of_lt h2 h3]
  · rw [next_false_eq]
    omega
  · intro h4
    rw [next_false_eq]
    omega
  · intro k
    induction k with
    | zero => rfl
    | succ m ih =>
      rw [Function.iterate_succ_apply, show next false (n - 1) n = n - 1 by
        rw [next_false_eq]; omega, ih]
  · rw [prev_false_eq]
    omega
  · intro h4
    rw [prev_false_eq]
    omega
  · rw [prev_false_eq]
    omega

/-- **C3** witness: the theorem applied at a concrete catalog length and
index. -/
theorem c3_witness :
    (next true 2 3 = (2 + 1) % 3 ∧ prev true 2 3 = (2 - 1 + 3) % 3) ∧
    (fun i => next true i 3)^[(3:Int).toNat] 2 = 2 ∧
    (next false 2 3 ≤ 3 - 1 ∧ ((2:Int) + 1 ≤ 3 - 1 → next false 2 3 = 2 + 1) ∧
      (∀ k : Nat, (fun i => next false i 3)^[k] (3 - 1) = 3 - 1)) ∧
    (0 ≤ prev false 2 3 ∧ ((1:Int) ≤ 2 → prev false 2 3 = 2 - 1) ∧
      prev false 0 3 = 0) :=
  c3_navigation 3 2 (by decide) (by decide) (by decide)

/-- **C4**.  Command-template expansion: the template is split into
whitespace-delimited fields first, each field is then expanded independently
(`%c` columns, `%r` rows minus 2, `%f` path, `%%` literal percent), the first
field being the command and the rest the arguments; in particular the
template `"previewer --size=%cx%r %f"` with columns 80, rows 24 and path
`/img/a.png` expands to `previewer` with arguments `--size=80x22` and
`/img/a.png`. -/
theorem c4_cmd_expansion :
    (∀ (s : List Char) (cols rows : Int) (path : List Char)
        (c : List Char) (rest : List (List Char)),
        fields s = c :: rest →
        generateCmd s cols rows path =
          some (expandTokens (cmdTab cols rows path) c,
            rest.map (expandTokens (cmdTab cols rows path)))) ∧
    generateCmd ("previewer --size=%cx%r %f").data 80 24 ("/img/a.png").data =
      some (("previewer").data, [("--size=80x22").data, ("/img/a.png").data]) := by
  constructor
  · intro s cols rows path c rest hf
    have hsne : s.isEmpty = false := by
      cases s with
      | nil => exact absurd hf (by simp [fields, splitAtSpaces])
      | cons d t => rfl
    simp only [generateCmd, hsne, Bool.false_eq_true, if_false, hf,
      List.map_cons]
  · decide

/-- **C4** witness: the expansion law applied at a concrete template. -/
theorem c4_witness :
    generateCmd ("x %f").data 1 3 ("/p").data =
      some (("x").data, [("/p").data]) :=
  (c4_cmd_expansion.1 ("x %f").data 1 3 ("/p").data ("x").data
    [("%f").data] (by decide)).trans (by decide)

theorem replAll3_cons3_pos {a b c x y z : Char} (rest rep : List Char)
    (h : x = a ∧ y = b ∧ z = c) :
    replAll3 a b c rep (x :: y :: z :: rest) = rep ++ replAll3 a b c rep rest := by
  simp [replAll3, h]

theorem replAll3_cons3_neg {a b c x y z : Char} (rest rep : List Char)
    (h : ¬(x = a ∧ y = b ∧ z = c)) :
    replAll3 a b c rep (x :: y :: z :: rest)
      = x :: replAll3 a b c rep (y :: z :: rest) := by
  simp [replAll3, h]

theorem split3_cons3_pos {a b c x y z : Char} (rest : List Char)
    (h : x = a ∧ y = b ∧ z = c) :
    split3 a b c (x :: y :: z :: rest) = [] :: split3 a b c rest := by
  simp [split3, h]

theorem split3_cons3_neg {a b c x y z : Char} {p : List Char}
    {ps : List (List Char)} (rest : List Char) (h : ¬(x = a ∧ y = b ∧ z = c))
    (hm : split3 a b c (y :: z :: rest) = p :: ps) :
    split3 a b c (x :: y :: z :: rest) = (x :: p) :: ps := by
  simp [split3, h, hm]

theorem split3_ne_nil (a b c : Char) (s : List Char) : split3 a b c s ≠ [] := by
  induction s using split3.induct a b c
  case case1 => rename_i x y z rest h ih; simp [split3_cons3_pos rest h]
  case case2 => rename_i x y z rest h hm ih; exact absurd hm ih
  case case3 =>
    rename_i x y z rest h p ps hm ih
    simp [split3_cons3_neg rest h hm]
  case case4 =>
    rename_i l h
    match l, h with
    | [], _ => simp [split3]
    | [d], _ => simp [split3]
    | [d, e], _ => simp [split3]
    | d :: e :: f :: t, h => exact absurd (h d e f t rfl) id

theorem joinWith_consHead (sep p : List Char) (x : Char)
    (ps : List (List Char)) :
    joinWith sep ((x :: p) :: ps) = x :: joinWith sep (p :: ps) := by
  cases ps <;> simp [joinWith]

theorem replAll3_eq_joinWith (a b c : Char) (rep l : List Char) :
    replAll3 a b c rep l = joinWith rep (split3 a b c l) := by
  induction l using split3.induct a b c
  case case1 =>
    rename_i x y z rest h ih
    rw [replAll3_cons3_pos rest rep h, split3_cons3_pos rest h, ih]
    obtain ⟨q, qs, hq⟩ : ∃ q qs, split3 a b c rest = q :: qs := by
      rcases hr : split3 a b c rest with _ | ⟨q, qs⟩
      · exact absurd hr (split3_ne_nil _ _ _ _)
      · exact ⟨q, qs, rfl⟩
    rw [hq]
    simp [joinWith]
  case case2 => rename_i x y z rest h hm ih; exact absurd hm (split3_ne_nil _ _ _ _)
  case case3 =>
    rename_i x y z rest h p ps hm ih
    rw [replAll3_cons3_neg rest rep h, split3_cons3_neg rest h hm,
      joinWith_consHead, ← hm, ih]
  case case4 =>
    rename_i l h
    match l, h with
    | [], _ => simp [replAll3, split3, joinWith]
    | [d], _ => simp [replAll3, split3, joinWith]
    | [d, e], _ => simp [replAll3, split3, joinWith]
    | d :: e :: f :: t, h => exact absurd (h d e f t rfl) id

/-- **C5** (amended).  Unknown-dimension sentinel: exactly when both width and
height are zero, the rendered line has every (non-overlapping, leftmost-first)
occurrence of `0x0`, and then of `0X0`, replaced by `N/A` — including
occurrences that coincidentally come from other placeholders or literal text;
when either dimension is non-zero the line is left untouched. -/
theorem c5_na_sentinel (sl : List Char) (pic : Picture) (idx total : Int) :
    (¬(pic.height = 0 ∧ pic.width = 0) →
      statusNA sl pic idx total = statusSubst sl pic idx total) ∧
    ((pic.height = 0 ∧ pic.width = 0) →
      statusNA sl pic idx total =
        joinWith ("N/A").data (split3 '0' 'X' '0'
          (joinWith ("N/A").data
            (split3 '0' 'x' '0' (statusSubst sl pic idx total))))) := by
  constructor
  · intro h
    simp [statusNA, h]
  · intro h
    simp only [statusNA, if_pos h, replAll3_eq_joinWith]

/-- **C5** counterexample to the claim as stated: with unknown dimensions, a
coincidental `0x0` inside the image name is replaced by `N/A` as well, so the
replacement does not fire only for the metadata occurrence. -/
theorem c5_counterexample :
    statusSubst ("%f %wx%h").data ⟨("a0x0b").data, ("p").data, 1, 0, 0, []⟩ 1 1
      = ("a0x0b 0x0").data ∧
    statusNA ("%f %wx%h").data ⟨("a0x0b").data, ("p").data, 1, 0, 0, []⟩ 1 1
      = ("aN/Ab N/A").data :=
  ⟨by decide, by decide⟩

/-- **C5** witness: the amended theorem applied at a concrete image with
unknown dimensions. -/
theorem c5_witness :
    statusNA ("%wx%h").data ⟨("n").data, ("p").data, 1, 0, 0, []⟩ 1 1 =
      joinWith ("N/A").data (split3 '0' 'X' '0'
        (joinWith ("N/A").data (split3 '0' 'x' '0'
          (statusSubst ("%wx%h").data
            ⟨("n").data, ("p").data, 1, 0, 0, []⟩ 1 1)))) :=
  (c5_na_sentinel ("%wx%h").data ⟨("n").data, ("p").data, 1, 0, 0, []⟩ 1 1).2
    ⟨rfl, rfl⟩

theorem replaceFirst_decomp (pat r : List Char) : ∀ (s : List Char),
    occurs pat s = true →
    ∃ pre post, s = pre ++ pat ++ post ∧
      replaceFirst pat r s = pre ++ r ++ post := by
  intro s
  induction s with
  | nil =>
    intro h
    have hp : pat = [] := by simpa [occurs, List.isEmpty_iff] using h
    subst hp
    exact ⟨[], [], rfl, by simp [replaceFirst]⟩
  | cons c rest ih =>
    intro h
    by_cases hp : pat.isPrefixOf (c :: rest)
    · have hpre : pat <+: c :: rest := by
        rwa [← List.isPrefixOf_iff_prefix]
      obtain ⟨t, ht⟩ := hpre
      refine ⟨[], t, by simp [← ht], ?_⟩
      simp only [replaceFirst, if_pos hp, List.nil_append]
      rw [← ht, List.drop_left]
    · have ho : occurs pat rest = true := by
        simpa [occurs, hp] using h
      obtain ⟨pre, post, h1, h2⟩ := ih ho
      exact ⟨c :: pre, post, by simp [h1],
        by simp [replaceFirst, hp, h2]⟩

/-- **C6** (amended).  Truncation strategy selection: whenever `excess > 0`,
if `excess` is smaller than the display width of the image name then — as
long as the rune-slice index `excess + displayWidth(truncatechar)` stays
within the name's code points — the name's prefix is replaced (at its first
occurrence in the line) by the truncation character with the tail kept;
otherwise, within the line's code points, the whole line is truncated from
the left, prefixed with the truncation character.  A first-occurrence
replacement leaves the rest of the line intact. -/
theorem c6_trunc_strategy (tc name s : List Char) (excess : Int)
    (hpos : 0 < excess) :
    (excess < (displayWidth name : Int) →
      excess.toNat + displayWidth tc ≤ name.length →
      truncStep tc name excess s =
        some (replaceFirst name
          (tc ++ name.drop (excess.toNat + displayWidth tc)) s)) ∧
    ((displayWidth name : Int) ≤ excess →
      excess.toNat + displayWidth tc ≤ s.length →
      truncStep tc name excess s =
        some (tc ++ s.drop (excess.toNat + displayWidth tc))) ∧
    (∀ r, occurs name s = true →
      ∃ pre post, s = pre ++ name ++ post ∧
        replaceFirst name r s = pre ++ r ++ post) := by
  refine ⟨?_, ?_, fun r h => replaceFirst_decomp name r s h⟩
  · intro h1 h2
    simp [truncStep, hpos, h1, h2]
  · intro h1 h2
    have hn : ¬ excess < (displayWidth name : Int) := not_lt.mpr h1
    simp [truncStep, hpos, hn, h2]

/-- **C6** counterexample to the claim as stated: a name of wide glyphs with
`excess > 0` and `excess < displayWidth(name)` makes the rune-slice start
index exceed the name's code-point count, so `printStatus` panics instead of
truncating within the name. -/
theorem c6_counterexample :
    (0:Int) < (displayWidth ("🙂🙂🙂").data : Int) - 2 * 0 - 2 ∧
    (displayWidth ("🙂🙂🙂").data : Int) - 2 * 0 - 2 <
      (displayWidth ("🙂🙂🙂").data : Int) ∧
    printStatus ("%f").data ("~").data
      ⟨("🙂🙂🙂").data, ("p").data, 1, 1, 1, []⟩ 1 1 2 = none :=
  ⟨by decide, by decide, by decide⟩

/-- **C6** witness: the amended theorem applied at a concrete line where
truncation happens inside the name. -/
theorem c6_witness :
    truncStep ("~").data ("abc").data 1 ("xabcy").data =
      some ("x~cy").data := by
  have h := (c6_trunc_strategy ("~").data ("abc").data ("xabcy").data 1
    (by decide)).1 (by decide) (by decide)
  exact h.trans (by decide)

theorem utf8Bytes_append (a b : List Char) :
    utf8Bytes (a ++ b) = utf8Bytes a ++ utf8Bytes b := by
  simp [utf8Bytes]

theorem utf8Bytes_take_drop (l : List Char) (k : Nat) :
    utf8Bytes l = utf8Bytes (l.take k) ++ utf8Bytes (l.drop k) := by
  conv_lhs => rw [← List.take_append_drop k l]
  rw [utf8Bytes_append]

/-- **C7**.  Code-point integrity of truncation: any line `printStatus`
truncation step produces keeps, after the truncation character, an exact
code-point suffix of the truncated string (the image name or the whole
line); in UTF-8 the truncated string's bytes split as the encodings of the
dropped code points followed by the encodings of the kept ones, so no
multi-byte code point is ever split. -/
theorem c7_codepoint_integrity (tc name s out : List Char) (excess : Int)
    (hpos : 0 < excess)
    (hout : truncStep tc name excess s = some out) :
    ∃ k,
      (out = replaceFirst name (tc ++ name.drop k) s ∧
        List.IsSuffix (name.drop k) name ∧
        utf8Bytes name = utf8Bytes (name.take k) ++ utf8Bytes (name.drop k)) ∨
      (out = tc ++ s.drop k ∧ List.IsSuffix (s.drop k) s ∧
        utf8Bytes s = utf8Bytes (s.take k) ++ utf8Bytes (s.drop k)) := by
  refine ⟨excess.toNat + displayWidth tc, ?_⟩
  by_cases h1 : excess < (displayWidth name : Int)
  · by_cases h2 : excess.toNat + displayWidth tc ≤ name.length
    · left
      simp only [truncStep, if_pos hpos, if_pos h1, if_pos h2,
        Option.some.injEq] at hout
      exact ⟨hout.symm, List.drop_suffix _ _, utf8Bytes_take_drop _ _⟩
    · exfalso
      simp [truncStep, hpos, h1, h2] at hout
  · by_cases h2 : excess.toNat + displayWidth tc ≤ s.length
    · right
      simp only [truncStep, if_pos hpos, if_neg h1, if_pos h2,
        Option.some.injEq] at hout
      exact ⟨hout.symm, List.drop_suffix _ _, utf8Bytes_take_drop _ _⟩
    · exfalso
      simp [truncStep, hpos, h1, h2] at hout

/-- **C7** witness: the integrity theorem applied at a concrete truncation. -/
theorem c7_witness :
    ∃ k,
      ((("w~cz").data : List Char) = replaceFirst ("abc").data
          (("~").data ++ ("abc").data.drop k) ("wabcz").data ∧
        List.IsSuffix (("abc").data.drop k) ("abc").data ∧
        utf8Bytes ("abc").data = utf8Bytes (("abc").data.take k)
          ++ utf8Bytes (("abc").data.drop k)) ∨
      ((("w~cz").data : List Char) = ("~").data ++ ("wabcz").data.drop k ∧
        List.IsSuffix (("wabcz").data.drop k) ("wabcz").data ∧
        utf8Bytes ("wabcz").data = utf8Bytes (("wabcz").data.take k)
          ++ utf8Bytes (("wabcz").data.drop k)) :=
  c7_codepoint_integrity ("~").data ("abc").data ("wabcz").data ("w~cz").data 1
    (by decide) (by decide)

theorem splitAtSpaces_ne_nil (s : List Char) : splitAtSpaces s ≠ [] := by
  induction s with
  | nil => simp [splitAtSpaces]
  | cons c rest ih =>
    by_cases h : goIsSpace c = true
    · simp [splitAtSpaces, h]
    · simp only [splitAtSpaces, h, Bool.false_eq_true, if_false]
      rcases hr : splitAtSpaces rest with _ | ⟨p, ps⟩
      · exact absurd hr ih
      · simp

theorem fields_cons_space {c : Char} (rest : List Char) (h : goIsSpace c = true) :
    fields (c :: rest) = fields rest := by
  simp [fields, splitAtSpaces, h]

theorem fields_cons_nonspace {c : Char} (rest : List Char)
    (h : goIsSpace c = false) : fields (c :: rest) ≠ [] := by
  obtain ⟨p, ps, hp⟩ : ∃ p ps, splitAtSpaces rest = p :: ps := by
    rcases hr : splitAtSpaces rest with _ | ⟨p, ps⟩
    · exact absurd hr (splitAtSpaces_ne_nil rest)
    · exact ⟨p, ps, rfl⟩
  simp [fields, splitAtSpaces, h, hp]

theorem fields_ne_nil : ∀ {s : List Char},
    (∃ c ∈ s, goIsSpace c = false) → fields s ≠ [] := by
  intro s
  induction s with
  | nil =>
    intro h
    obtain ⟨c, hc, _⟩ := h
    exact absurd hc (List.not_mem_nil c)
  | cons c rest ih =>
    intro h
    cases hsp : goIsSpace c with
    | false => exact fields_cons_nonspace rest hsp
    | true =>
      rw [fields_cons_space rest hsp]
      apply ih
      obtain ⟨d, hd, hdf⟩ := h
      rcases List.mem_cons.mp hd with rfl | hmem
      · rw [hsp] at hdf
        cases hdf
      · exact ⟨d, hmem, hdf⟩

/-- **C9** (amended).  Totality of `generateCmd` away from the whitespace
edge: for every template that is empty or contains at least one
non-whitespace character, `generateCmd` returns a (command, args) pair with
the `parts[0]` access in bounds.  (A non-empty, whitespace-only template
instead leaves `strings.Fields` empty and the `parts[0]` access out of
range.) -/
theorem c9_total_on_nonblank (s : List Char) (cols rows : Int)
    (path : List Char)
    (h : s = [] ∨ ∃ c ∈ s, goIsSpace c = false) :
    (generateCmd s cols rows path).isSome = true := by
  rcases h with rfl | h
  · simp [generateCmd]
  · have hf := fields_ne_nil h
    rcases hfe : fields s with _ | ⟨c, rest⟩
    · exact absurd hfe hf
    · cases s with
      | nil => simp [fields, splitAtSpaces] at hfe
      | cons a t => simp [generateCmd, hfe]

/-- **C9** counterexample to the claim as stated: on the non-empty,
whitespace-only template `" "` the field list is empty and the `parts[0]`
access is out of range (`generateCmd` panics, modelled as `none`), unlike the
empty template's no-op result. -/
theorem c9_counterexample :
    generateCmd (" ").data 80 24 ("/a").data = none ∧
    generateCmd ([] : List Char) 80 24 ("/a").data = some ([], []) :=
  ⟨by decide, by decide⟩

/-- **C9** witness: the amended totality theorem applied at a template with a
non-whitespace character. -/
theorem c9_witness :
    (generateCmd (" x").data 2 5 ("/p").data).isSome = true :=
  c9_total_on_nonblank (" x").data 2 5 ("/p").data
    (Or.inr ⟨'x', by decide, by decide⟩)

theorem displayWidth_le_length {l : List Char} (h : ∀ c ∈ l, utf8Len c ≠ 4) :
    displayWidth l ≤ l.length := by
  induction l with
  | nil => simp [displayWidth]
  | cons c rest ih =>
    rw [displayWidth_cons]
    have h4 := h c (List.mem_cons_self c rest)
    have h1 : runeWidth c ≤ 1 := by
      by_cases hm : isMn c = true
      · simp [runeWidth, hm]
      · simp [runeWidth, hm, h4]
    have h2 := ih (fun d hd => h d (List.mem_cons_of_mem c hd))
    simp only [List.length_cons]
    omega

/-- **C10** (amended).  In-bounds truncation slicing: whenever `excess > 0`,
provided the truncation character is at most one column wide, the terminal is
at least one column wide, and the sliced string contains no 4-byte (2-column)
code points, the rune-slice start index `excess + displayWidth(truncatechar)`
never exceeds the sliced string's code-point count, so the truncation step
succeeds.  (With wide glyphs the index can exceed the count and the slice
panics.) -/
theorem c10_inbounds (tc name s : List Char) (gaps : Nat) (cols excess : Int)
    (htc : displayWidth tc ≤ 1)
    (hname : ∀ c ∈ name, utf8Len c ≠ 4)
    (hs : ∀ c ∈ s, utf8Len c ≠ 4)
    (hcols : 1 ≤ cols)
    (hex : excess = (displayWidth s : Int) - 2 * (gaps : Int) - cols)
    (hpos : 0 < excess) :
    (excess < (displayWidth name : Int) →
      excess.toNat + displayWidth tc ≤ name.length) ∧
    excess.toNat + displayWidth tc ≤ s.length ∧
    (truncStep tc name excess s).isSome = true := by
  have hdn := displayWidth_le_length hname
  have hds := displayWidth_le_length hs
  have hbound2 : excess.toNat + displayWidth tc ≤ s.length := by omega
  have hbound1 : excess < (displayWidth name : Int) →
      excess.toNat + displayWidth tc ≤ name.length := fun hlt => by omega
  refine ⟨hbound1, hbound2, ?_⟩
  by_cases h1 : excess < (displayWidth name : Int)
  · simp [truncStep, hpos, h1, hbound1 h1]
  · simp [truncStep, hpos, h1, hbound2]

/-- **C10** counterexample to the claim as stated: for a name of two 2-column
emoji (display width 4, two code points) and one terminal column, `excess` is
positive and smaller than the name's display width, yet the rune-slice start
index exceeds the name's code-point count and `printStatus` panics. -/
theorem c10_counterexample :
    (0:Int) < (displayWidth ("😀😀").data : Int) - 2 * 0 - 1 ∧
    (displayWidth ("😀😀").data : Int) - 2 * 0 - 1 <
      (displayWidth ("😀😀").data : Int) ∧
    (("😀😀").data).length <
      ((displayWidth ("😀😀").data : Int) - 2 * 0 - 1).toNat
        + displayWidth ("~").data ∧
    printStatus ("%f").data ("~").data
      ⟨("😀😀").data, ("p").data, 1, 1, 1, []⟩ 1 1 1 = none :=
  ⟨by decide, by decide, by decide, by decide⟩

/-- **C10** witness: the amended in-bounds theorem applied at a concrete
line without wide glyphs. -/
theorem c10_witness :
    ((3:Int) < (displayWidth ("ab").data : Int) →
      (3:Int).toNat + displayWidth ("~").data ≤ (("ab").data).length) ∧
    (3:Int).toNat + displayWidth ("~").data ≤ (("xaby").data).length ∧
    (truncStep ("~").data ("ab").data 3 ("xaby").data).isSome = true :=
  c10_inbounds ("~").data ("ab").data ("xaby").data 0 1 3 (by decide)
    (by decide) (by decide) (by decide) (by decide) (by decide)

/-- **C8**.  Render-failure recovery: when a render is pending and the
cleaner or the previewer invocation fails, the loop iteration reports the
error on the status row as a string prefixed by the configured error format,
and the iteration does not exit the loop (for any input byte other than `q`
or end of input) — a single render failure never terminates the process. -/
theorem c8_render_failure_recovery (cfg : LoopCfg) (pics : Int → Picture)
    (total cols rows : Int) (cc pc : ChildResult) (st : LoopSt) (b : Char)
    (cname : List Char) (cargs : List (List Char))
    (hd : st.last ≠ st.curr) (hb : ¬ b = 'q')
    (hgen : generateCmd cfg.cleaner cols rows (pics st.curr).path
      = some (cname, cargs)) :
    ∀ st2 evs ex,
      loopIter cfg pics total cols rows cc pc st (some b)
        = some (st2, evs, ex) →
      ex = false ∧
      ((execCmd cname cc).2 = true →
        Event.printAt rows 1 (showErrorText cfg.errorfmt msgClear) ∈ evs) ∧
      (∀ pname pargs, (execCmd cname cc).2 = false →
        generateCmd cfg.previewer cols rows (pics st.curr).path
          = some (pname, pargs) →
        (execCmd pname pc).2 = true →
        Event.printAt rows 1
          (showErrorText cfg.errorfmt (msgDisplay (pics st.curr).path)) ∈ evs) := by
  intro st2 evs ex hiter
  rcases hrd : renderDirty cfg pics total cols rows cc pc st with _ | ⟨st1, evs1⟩
  · rw [loopIter, hrd] at hiter
    cases hiter
  rw [loopIter, hrd] at hiter
  simp only [Option.some_bind] at hiter
  have key : ex = false ∧ (evs = evs1 ∨ evs = evs1 ++ [Event.helpShown]) := by
    rw [if_neg hb] at hiter
    split at hiter <;>
      [skip; split at hiter] <;>
      [skip; skip; split at hiter] <;>
      [skip; skip; skip; split at hiter] <;>
      [skip; skip; skip; skip; split at hiter] <;>
      simp only [Option.some.injEq, Prod.mk.injEq] at hiter <;>
      obtain ⟨h1, h2, h3⟩ := hiter <;>
      exact ⟨h3.symm, by rw [← h2]; simp⟩
  refine ⟨key.1, ?_, ?_⟩
  all_goals
    have hmem : ∀ e : Event, e ∈ evs1 → e ∈ evs := by
      intro e he
      rcases key.2 with h | h <;> rw [h]
      · exact he
      · exact List.mem_append_left _ he
  · intro hcf
    apply hmem
    rw [renderDirty, if_neg hd] at hrd
    simp only [hgen, hcf, if_pos] at hrd
    simp only [Option.some.injEq, Prod.mk.injEq] at hrd
    rw [← hrd.2]
    simp
  · intro pname pargs hcs hgenp hpf
    apply hmem
    rw [renderDirty, if_neg hd] at hrd
    simp only [hgen, hcs, hgenp, hpf, Bool.false_eq_true, if_false, if_pos] at hrd
    simp only [Option.some.injEq, Prod.mk.injEq] at hrd
    rw [← hrd.2]
    simp

/-- **C8** witness: a concrete loop iteration whose cleaner invocation fails
is reported with the error-format prefix on the status row and does not exit
the loop. -/
theorem c8_witness :
    Event.printAt 2 1 (showErrorText ("E").data msgClear) ∈
      [Event.printAt 2 1 (showErrorText ("E").data msgClear)] ∧
    (false : Bool) = false := by
  have h := c8_render_failure_recovery
    ⟨false, false, ("c").data, ("v").data, ("%f").data, ("~").data, ("E").data⟩
    (fun _ => ⟨("n").data, ("q").data, 1, 1, 1, []⟩) 1 3 2 ⟨1, [], []⟩
    ⟨0, [], []⟩ ⟨0, -1⟩ 'l' ("c").data [] (by decide) (by decide) (by decide)
    ⟨0, 0⟩ [Event.printAt 2 1 (showErrorText ("E").data msgClear)] false
    (by decide)
  exact ⟨h.2.1 (by decide), h.1⟩

end Spit
